import Mathlib

/-!
# Verification of the Trafikverket MCP geometry / spatial-query core

Shallow embedding of the repository's geometry and query code:

* `src/lib/geometry-utils.ts` — Douglas–Peucker simplification (`simplifyPath`),
  precision truncation, detail-level formatting, point-to-track distances;
* the Lastkajen client — bounding boxes (`parseBBox`, `isPointInBBox`,
  `geometryIntersectsBBox`), the result cache (`getCached` / `setCache`,
  24-hour TTL), the generic bbox query factory (`createBBoxQuery`) and
  `getSegmentInfrastructure`;
* `src/types/common-schemas.ts` — the bbox input format check (`bboxSchema`).

Modelling conventions:

* JavaScript numbers are modelled as exact rationals (`ℚ`).  The source
  compares square roots (`perpendicularDistance`, `pointToSegmentDistance`)
  against nonnegative bounds; since `Real.sqrt` is monotone, each comparison
  `sqrt a ≤ t` (for `0 ≤ t`) is equivalently decided as `a ≤ t ^ 2`, and
  `sqrt a < sqrt b` as `a < b`.  The embedding therefore works with squared
  distances throughout and is exact for the ideal-real semantics of the code.
* A GeoJSON LineString is represented by its coordinate list `List Q2`,
  a Point by a single pair `Q2`.
* Recursion in `simplifyPath` is made structural with a fuel argument;
  `coords.length` fuel always suffices (`simplifyPathGo_fuel` below), so
  `simplifyPath` computes exactly the source recursion.
* The result cache (a JS `Map` keyed by strings, mutated in place) is passed
  as explicit state, together with the clock `now` (`Date.now()`), and each
  query is modelled to additionally report whether it scanned the dataset
  (i.e. whether the source would have invoked its `loadFn`).
-/

/-- A `[lon, lat]` coordinate pair. -/
abbrev Q2 := ℚ × ℚ

/-- Squared form of `perpendicularDistance` (geometry-utils.ts lines 53–71):
if the chord is degenerate the source returns the Euclidean distance to
`lineStart`, otherwise `|cross| / sqrt lineLengthSq`; squaring both cases
preserves every comparison made by the callers. -/
def perpDistSq (point lineStart lineEnd : Q2) : ℚ :=
  let dx := lineEnd.1 - lineStart.1
  let dy := lineEnd.2 - lineStart.2
  let lineLengthSq := dx ^ 2 + dy ^ 2
  if lineLengthSq = 0 then
    (point.1 - lineStart.1) ^ 2 + (point.2 - lineStart.2) ^ 2
  else
    (dy * point.1 - dx * point.2 + lineEnd.1 * lineStart.2 - lineEnd.2 * lineStart.1) ^ 2
      / lineLengthSq

/-- The scan of `simplifyPath` (lines 24–35): walk the interior points,
keeping the (squared) maximal distance and the index of its first witness;
`i` is the index of the head of `ps` in the original array, the initial
state is `maxDist = 0`, `maxIndex = 0`. -/
def findFarthestAux (first last : Q2) : List Q2 → ℕ → ℚ → ℕ → ℚ × ℕ
  | [], _, bestD, bestI => (bestD, bestI)
  | p :: rest, i, bestD, bestI =>
    let d := perpDistSq p first last
    if bestD < d then findFarthestAux first last rest (i + 1) d i
    else findFarthestAux first last rest (i + 1) bestD bestI

/-- Fuelled body of `simplifyPath` (lines 20–48).  The comparison
`maxDist > tolerance` is decided on squares (`tolerance ^ 2 < maxDistSq`),
which is exact for the nonnegative tolerances the code is called with
(the source recursion does not even terminate for a negative tolerance). -/
def simplifyPathGo : ℕ → List Q2 → ℚ → List Q2
  | 0, coords, _ => coords
  | fuel + 1, coords, tolerance =>
    if coords.length ≤ 2 then coords
    else
      match coords.head?, coords.getLast? with
      | some first, some last =>
        let fm := findFarthestAux first last ((coords.drop 1).dropLast) 1 0 0
        if tolerance ^ 2 < fm.1 then
          (simplifyPathGo fuel (coords.take (fm.2 + 1)) tolerance).dropLast
            ++ simplifyPathGo fuel (coords.drop fm.2) tolerance
        else [first, last]
      | _, _ => coords

/-- `simplifyPath` (geometry-utils.ts lines 20–48). -/
def simplifyPath (coords : List Q2) (tolerance : ℚ) : List Q2 :=
  simplifyPathGo coords.length coords tolerance

/-- JavaScript `Math.round`: round half away from zero toward `+∞`. -/
def jsRound (q : ℚ) : ℤ := ⌊q + 1 / 2⌋

/-- `truncatePrecision` (lines 80–82): round each coordinate to 6 decimals. -/
def truncatePrecision (coords : List Q2) : List Q2 :=
  coords.map (fun c => ((jsRound (c.1 * 1000000) : ℚ) / 1000000,
                        (jsRound (c.2 * 1000000) : ℚ) / 1000000))

/-- `GeometryDetail` (line 87). -/
inductive GeometryDetail
  | metadata
  | corridor
  | precise
deriving DecidableEq, Repr

/-- `DEFAULT_TOLERANCE = 0.005` (line 94). -/
def DEFAULT_TOLERANCE : ℚ := 5 / 1000

/-- `formatLineGeometry` (lines 103–115). -/
def formatLineGeometry (geometry : List Q2) : GeometryDetail → Option (List Q2)
  | .metadata => none
  | .corridor => some (truncatePrecision (simplifyPath geometry DEFAULT_TOLERANCE))
  | .precise => some geometry

/-- `coords[0]` and `coords[coords.length - 1]` as a two-point list; the
source only builds this for lists of length > 2, where both lookups exist. -/
def firstLast (coords : List Q2) : List Q2 :=
  match coords.head?, coords.getLast? with
  | some a, some b => [a, b]
  | _, _ => []

/-- `formatLineStructureGeometry` (lines 125–142): for tunnels, any
non-metadata detail level collapses a LineString of more than 2 points to
its first and last point. -/
def formatLineStructureGeometry (geometry : List Q2) (detail : GeometryDetail) :
    Option (List Q2) :=
  if detail = .metadata then none
  else if geometry.length ≤ 2 then some geometry
  else some (firstLast geometry)

/-- The `GeoJsonLineString | GeoJsonPoint` union taken by
`formatStructureGeometry` (bridge geometry). -/
inductive LineOrPoint
  | line (coordinates : List Q2)
  | point (coordinates : Q2)
deriving DecidableEq, Repr

/-- `formatStructureGeometry` (lines 153–175). -/
def formatStructureGeometry (geometry : LineOrPoint) (detail : GeometryDetail) :
    Option LineOrPoint :=
  if detail = .metadata then none
  else
    match geometry with
    | .point c => some (.point c)
    | .line coords =>
      if coords.length ≤ 2 then some (.line coords)
      else some (.line (firstLast coords))

/-- `formatPointGeometry` (lines 184–187). -/
def formatPointGeometry (geometry : Q2) (detail : GeometryDetail) : Option Q2 :=
  if detail = .metadata then none else some geometry

/-- Squared form of `pointToSegmentDistance` (lines 201–231): squared
distance from `point` to the closest position on the segment, via the
clamped projection parameter. -/
def pointToSegmentDistSq (point segStart segEnd : Q2) : ℚ :=
  let dx := segEnd.1 - segStart.1
  let dy := segEnd.2 - segStart.2
  let lenSq := dx * dx + dy * dy
  if lenSq = 0 then
    (point.1 - segStart.1) ^ 2 + (point.2 - segStart.2) ^ 2
  else
    let t := max 0 (min 1 (((point.1 - segStart.1) * dx + (point.2 - segStart.2) * dy) / lenSq))
    let closestX := segStart.1 + t * dx
    let closestY := segStart.2 + t * dy
    (point.1 - closestX) ^ 2 + (point.2 - closestY) ^ 2

/-- Squared form of `pointToLineStringDistance` (lines 240–254): `none`
stands for the source's `Infinity` on an empty polyline; a single point
gives the direct squared distance; otherwise the minimum over consecutive
segments (the minimum of squares is the square of the minimum). -/
def pointToLineStringDistSq (point : Q2) (lineCoords : List Q2) : Option ℚ :=
  match lineCoords with
  | [] => none
  | [c] => some ((point.1 - c.1) ^ 2 + (point.2 - c.2) ^ 2)
  | c₁ :: c₂ :: rest =>
    some ((c₂ :: rest).zip (c₁ :: c₂ :: rest) |>.foldl
      (fun minDist pair => min minDist (pointToSegmentDistSq point pair.2 pair.1))
      (pointToSegmentDistSq point c₁ c₂))

/-- `DEFAULT_STATION_THRESHOLD = 0.005` (line 260). -/
def DEFAULT_STATION_THRESHOLD : ℚ := 5 / 1000

/-- `STATION_FILTER_SIMPLIFICATION_TOLERANCE = 0.01` (line 266). -/
def STATION_FILTER_SIMPLIFICATION_TOLERANCE : ℚ := 1 / 100

/-- `isStationNearTrack` (lines 279–292): simplify the track, then compare
the distance with the threshold; `dist ≤ t` is decided on squares as
`0 ≤ t ∧ distSq ≤ t ^ 2`, exact since the real distance is nonnegative. -/
def isStationNearTrack (stationGeometry : Q2) (trackGeometry : List Q2)
    (thresholdDegrees : ℚ) : Bool :=
  let simplifiedCoords := simplifyPath trackGeometry STATION_FILTER_SIMPLIFICATION_TOLERANCE
  match pointToLineStringDistSq stationGeometry simplifiedCoords with
  | none => false
  | some dsq => decide (0 ≤ thresholdDegrees ∧ dsq ≤ thresholdDegrees ^ 2)

/-- `simplifyTrackForStationFilter` (lines 301–303). -/
def simplifyTrackForStationFilter (trackGeometry : List Q2) : List Q2 :=
  simplifyPath trackGeometry STATION_FILTER_SIMPLIFICATION_TOLERANCE

/-- `isPointNearSimplifiedTrack` (lines 314–322). -/
def isPointNearSimplifiedTrack (stationGeometry : Q2) (simplifiedTrackCoords : List Q2)
    (thresholdDegrees : ℚ) : Bool :=
  match pointToLineStringDistSq stationGeometry simplifiedTrackCoords with
  | none => false
  | some dsq => decide (0 ≤ thresholdDegrees ∧ dsq ≤ thresholdDegrees ^ 2)

/-! ## Spatial filter and input validation (Lastkajen client, common-schemas) -/

/-- `BBox` (client lines 74–79). -/
structure BBox where
  minLon : ℚ
  minLat : ℚ
  maxLon : ℚ
  maxLat : ℚ
deriving DecidableEq, Repr

/-- `bbox.split(',')` over the character list: split on commas, keeping
empty fields, as JavaScript `String.prototype.split` does. -/
def splitOnComma : List Char → List (List Char)
  | [] => [[]]
  | c :: rest =>
    let r := splitOnComma rest
    if c = ',' then [] :: r
    else
      match r with
      | g :: gs => (c :: g) :: gs
      | [] => [[c]]

/-- Digit run to a natural number. -/
def digitsToNat (cs : List Char) : ℕ :=
  cs.foldl (fun acc c => 10 * acc + (c.toNat - 48)) 0

/-- JavaScript `Number(s)` on the character set admitted by the bbox schema
(digits, `.`, `-`): an optional leading minus, then either a nonempty digit
run, or digits around a single dot with at least one digit present; the
empty string is `0`; everything else is `NaN` (`none`).  (Exponents, hex,
whitespace and `+` cannot occur in schema-validated bbox fields.) -/
def parseNumChars (cs : List Char) : Option ℚ :=
  let (neg, body) :=
    match cs with
    | '-' :: rest => (true, rest)
    | _ => (false, cs)
  let intDigits := body.takeWhile (·.isDigit)
  let rest := body.dropWhile (·.isDigit)
  let value? : Option ℚ :=
    match rest with
    | [] =>
      if body.isEmpty then (if neg then none else some 0)
      else some (digitsToNat intDigits : ℚ)
    | '.' :: fracDigits =>
      if fracDigits.all (·.isDigit) ∧ (intDigits ≠ [] ∨ fracDigits ≠ []) then
        some ((digitsToNat intDigits : ℚ) + (digitsToNat fracDigits : ℚ) / 10 ^ fracDigits.length)
      else none
    | _ => none
  value?.map (fun v => if neg then -v else v)

/-- `parseBBox` (client lines 84–95): split on commas, convert each field
with `Number`, fail unless there are exactly four numeric fields.  No
ordering constraint between min and max is checked. -/
def parseBBox (bbox : String) : Except String BBox :=
  match (splitOnComma bbox.data).map parseNumChars with
  | [some a, some b, some c, some d] => .ok ⟨a, b, c, d⟩
  | _ => .error "Invalid bbox format. Use minLon,minLat,maxLon,maxLat"

/-- The `bboxSchema` regex of common-schemas.ts line 43: exactly four
comma-separated nonempty runs of characters from the class digits, dot,
minus. -/
def bboxSchemaAccepts (s : String) : Bool :=
  let parts := splitOnComma s.data
  parts.length == 4 &&
    parts.all (fun p => !p.isEmpty && p.all (fun c => c.isDigit || c == '.' || c == '-'))

/-- `isPointInBBox` (client lines 119–121): inclusive range test on both
axes independently. -/
def isPointInBBox (lon lat : ℚ) (bbox : BBox) : Bool :=
  decide (bbox.minLon ≤ lon) && decide (lon ≤ bbox.maxLon) &&
    decide (bbox.minLat ≤ lat) && decide (lat ≤ bbox.maxLat)

/-- The geometry union handled by `geometryIntersectsBBox`. -/
inductive Geometry
  | point (coordinates : Q2)
  | lineString (coordinates : List Q2)
  | polygon (rings : List (List Q2))
deriving DecidableEq, Repr

/-- `geometryIntersectsBBox` (client lines 126–146): a point delegates to
`isPointInBBox`; a LineString (and the outer ring of a Polygon) intersects
iff some vertex lies in the box — a vertex-sampling test, not segment
clipping. -/
def geometryIntersectsBBox (geometry : Geometry) (bbox : BBox) : Bool :=
  match geometry with
  | .point c => isPointInBBox c.1 c.2 bbox
  | .lineString coords => coords.any (fun c => isPointInBBox c.1 c.2 bbox)
  | .polygon rings => (rings.headD []).any (fun c => isPointInBBox c.1 c.2 bbox)

/-! ## Result cache (client lines 46–69) -/

/-- `CacheEntry` (lines 47–50); timestamps are `Date.now()` milliseconds. -/
structure CacheEntry (α : Type) where
  data : α
  timestamp : ℕ
deriving DecidableEq, Repr

/-- The `Map<string, CacheEntry>` as an association list in insertion
order. -/
abbrev Cache (α : Type) := List (String × CacheEntry α)

/-- `CACHE_TTL` (line 52): 24 hours in milliseconds. -/
def CACHE_TTL : ℕ := 24 * 60 * 60 * 1000

/-- `Map.get`. -/
def cacheLookup (c : Cache α) (key : String) : Option (CacheEntry α) :=
  (c.find? (fun e => e.1 == key)).map (fun e => e.2)

/-- `Map.delete`. -/
def cacheErase (c : Cache α) (key : String) : Cache α :=
  c.filter (fun e => !(e.1 == key))

/-- `getCached` (lines 55–65), with the clock explicit; an entry older than
the TTL is dropped and reported absent.  Returns the possibly-shrunk map. -/
def getCached (key : String) (now : ℕ) (c : Cache α) : Option α × Cache α :=
  match cacheLookup c key with
  | none => (none, c)
  | some entry =>
    if CACHE_TTL < now - entry.timestamp then (none, cacheErase c key)
    else (some entry.data, c)

/-- `setCache` (lines 67–69): `Map.set` replaces in place or appends. -/
def setCache (key : String) (data : α) (now : ℕ) (c : Cache α) : Cache α :=
  if (c.find? (fun e => e.1 == key)).isSome then
    c.map (fun e => if e.1 == key then (key, ⟨data, now⟩) else e)
  else c ++ [(key, ⟨data, now⟩)]

/-! ## Records and the query engine (client lines 155–371) -/

/-- A geometric record: the per-category TS interfaces (Track, Tunnel, …)
are embedded uniformly as identifying fields, opaque remaining attributes
(`payload`), and an optional geometry of the category's type `γ`
(`designation` is only populated for tracks, `trackId` only for
tunnels/bridges/electrification). -/
structure Rec (γ : Type) where
  id : String
  designation : Option String := none
  trackId : Option String := none
  payload : String := ""
  geometry : Option γ
deriving DecidableEq, Repr

/-- Track / electrification geometry into the filter's geometry union. -/
def lineToGeometry (cs : List Q2) : Geometry := .lineString cs

/-- Point-record geometry into the filter's geometry union. -/
def pointToGeometry (c : Q2) : Geometry := .point c

/-- Bridge geometry into the filter's geometry union. -/
def lineOrPointToGeometry : LineOrPoint → Geometry
  | .line cs => .lineString cs
  | .point c => .point c

/-- `transformTrackGeometry` (lines 155–163): format the geometry, dropping
the field when the formatter yields nothing.  (On a record with absent line
geometry the source strips the field at `metadata`/`precise` and would
throw at `corridor`; the embedding strips it uniformly — the typed record
sets the source loads always carry line geometry here.) -/
def transformTrackGeometry (track : Rec (List Q2)) (detail : GeometryDetail) :
    Rec (List Q2) :=
  { track with geometry := track.geometry.bind (fun g => formatLineGeometry g detail) }

/-- `transformTunnelGeometry` (lines 168–175). -/
def transformTunnelGeometry (tunnel : Rec (List Q2)) (detail : GeometryDetail) :
    Rec (List Q2) :=
  { tunnel with geometry := tunnel.geometry.bind (fun g => formatLineStructureGeometry g detail) }

/-- `transformBridgeGeometry` (lines 180–187). -/
def transformBridgeGeometry (bridge : Rec LineOrPoint) (detail : GeometryDetail) :
    Rec LineOrPoint :=
  { bridge with geometry := bridge.geometry.bind (fun g => formatStructureGeometry g detail) }

/-- `transformSwitchGeometry` (lines 192–199). -/
def transformSwitchGeometry (sw : Rec Q2) (detail : GeometryDetail) : Rec Q2 :=
  { sw with geometry := sw.geometry.bind (fun g => formatPointGeometry g detail) }

/-- `transformElectrificationGeometry` (lines 204–211); the source calls
the record `section`, which is a keyword here. -/
def transformElectrificationGeometry (sec : Rec (List Q2)) (detail : GeometryDetail) :
    Rec (List Q2) :=
  { sec with geometry := sec.geometry.bind (fun g => formatLineGeometry g detail) }

/-- `transformStationGeometry` (lines 216–223). -/
def transformStationGeometry (station : Rec Q2) (detail : GeometryDetail) : Rec Q2 :=
  { station with geometry := station.geometry.bind (fun g => formatPointGeometry g detail) }

/-- `transformYardGeometry` (lines 228–235). -/
def transformYardGeometry (yard : Rec Q2) (detail : GeometryDetail) : Rec Q2 :=
  { yard with geometry := yard.geometry.bind (fun g => formatPointGeometry g detail) }

/-- `transformAccessRestrictionGeometry` (lines 240–247). -/
def transformAccessRestrictionGeometry (restriction : Rec Q2) (detail : GeometryDetail) :
    Rec Q2 :=
  { restriction with geometry := restriction.geometry.bind (fun g => formatPointGeometry g detail) }

/-- `limit || 100`: both an omitted limit and a limit of `0` are falsy in
JavaScript and fall back to the default of 100. -/
def effLimit : Option ℕ → ℕ
  | none => 100
  | some 0 => 100
  | some (n + 1) => n + 1

/-- The filter step of `createBBoxQuery` (line 347 / 352): keep records
whose geometry is present and intersects the box. -/
def bboxFilter (toGeom : γ → Geometry) (items : List (Rec γ)) (bbox : BBox) :
    List (Rec γ) :=
  items.filter (fun item =>
    match item.geometry with
    | some g => geometryIntersectsBBox (toGeom g) bbox
    | none => false)

/-- The cache key template of `createBBoxQuery` line 338.  Rational
`toString` plays the role of JS number formatting: both are injective and
comma-free, so key equality coincides. -/
def bboxCacheKey (tag : String) (b : BBox) : String :=
  tag ++ ":bbox:" ++ toString b.minLon ++ "," ++ toString b.minLat ++ ","
    ++ toString b.maxLon ++ "," ++ toString b.maxLat

/-- One invocation of a query produced by `createBBoxQuery`
(client lines 331–359), with the loaded dataset, clock and cache explicit.
`cacheTag` is the factory's `cachePrefix` argument.  Returns the records,
the updated cache, and whether the dataset was scanned (`loadFn` invoked).
The limit is applied to the filtered list before the per-record geometry
transformation runs (line 356). -/
def runBBoxQuery (toGeom : γ → Geometry) (transformFn : Rec γ → GeometryDetail → Rec γ)
    (cacheTag : Option String) (allItems : List (Rec γ)) (bbox : BBox)
    (limit : Option ℕ) (geometryDetail : GeometryDetail) (now : ℕ)
    (cache : Cache (List (Rec γ))) :
    List (Rec γ) × Cache (List (Rec γ)) × Bool :=
  match cacheTag with
  | some tag =>
    let key := bboxCacheKey tag bbox
    match getCached key now cache with
    | (some cached, c₁) =>
      ((cached.take (effLimit limit)).map (fun it => transformFn it geometryDetail), c₁, false)
    | (none, c₁) =>
      let filtered := bboxFilter toGeom allItems bbox
      ((filtered.take (effLimit limit)).map (fun it => transformFn it geometryDetail),
        setCache key filtered now c₁, true)
  | none =>
    let filtered := bboxFilter toGeom allItems bbox
    ((filtered.take (effLimit limit)).map (fun it => transformFn it geometryDetail),
      cache, true)

/-- `getTracksByBBox` (line 361) — the only bbox query built with a
`cachePrefix`. -/
def getTracksByBBox := runBBoxQuery lineToGeometry transformTrackGeometry (some "tracks")

/-- `getTunnelsByBBox` (line 362) — no `cachePrefix`, hence no caching. -/
def getTunnelsByBBox := runBBoxQuery lineToGeometry transformTunnelGeometry none

/-- `getBridgesByBBox` (line 363). -/
def getBridgesByBBox := runBBoxQuery lineOrPointToGeometry transformBridgeGeometry none

/-- `getSwitchesByBBox` (line 364). -/
def getSwitchesByBBox := runBBoxQuery pointToGeometry transformSwitchGeometry none

/-- `getElectrificationByBBox` (line 365). -/
def getElectrificationByBBox :=
  runBBoxQuery lineToGeometry transformElectrificationGeometry none

/-- `getStationsByBBox` (line 366). -/
def getStationsByBBox := runBBoxQuery pointToGeometry transformStationGeometry none

/-- `getYardsByBBox` (line 367). -/
def getYardsByBBox := runBBoxQuery pointToGeometry transformYardGeometry none

/-- `getAccessRestrictionsByBBox` (lines 368–371). -/
def getAccessRestrictionsByBBox :=
  runBBoxQuery pointToGeometry transformAccessRestrictionGeometry none

/-- The eight loaded collections seen by `getSegmentInfrastructure`. -/
structure Dataset where
  tracks : List (Rec (List Q2))
  tunnels : List (Rec (List Q2))
  bridges : List (Rec LineOrPoint)
  switches : List (Rec Q2)
  electrification : List (Rec (List Q2))
  stations : List (Rec Q2)
  yards : List (Rec Q2)
  accessRestrictions : List (Rec Q2)
deriving Repr

/-- `SegmentInfrastructure` (njdb-api.ts / client lines 299–309). -/
structure SegmentInfrastructure where
  trackId : String
  track : Option (Rec (List Q2))
  tunnels : List (Rec (List Q2))
  bridges : List (Rec LineOrPoint)
  switches : List (Rec Q2)
  electrification : List (Rec (List Q2))
  stations : List (Rec Q2)
  yards : List (Rec Q2)
  accessRestrictions : List (Rec Q2)
deriving DecidableEq, Repr

/-- The proximity association of `getSegmentInfrastructure` (client lines
287–297, the `if (track && track.geometry)` guard): the track is simplified
once and each point record with geometry is tested against it, records
without geometry are skipped; without a track (or track geometry) the list
stays empty. -/
def nearbyFilter (track : Option (Rec (List Q2))) (recs : List (Rec Q2)) :
    List (Rec Q2) :=

  match track with
  | some tr =>
    match tr.geometry with
    | some geom =>
      let simplifiedTrack := simplifyTrackForStationFilter geom
      recs.filter (fun r =>
        match r.geometry with
        | some g => isPointNearSimplifiedTrack g simplifiedTrack DEFAULT_STATION_THRESHOLD
        | none => false)
    | none => []
  | none => []

/-- The raw (pre-transform, cacheable) result of `getSegmentInfrastructure`
(client lines 278–309): find the track by id or designation;
tunnels/bridges/electrification by their `trackId` foreign key; the four
point categories by proximity via `nearbyFilter`. -/
def segmentRaw (data : Dataset) (trackId : String) : SegmentInfrastructure :=
  let track := data.tracks.find? (fun t => t.id == trackId || t.designation == some trackId)
  { trackId := trackId
    track := track
    tunnels := data.tunnels.filter (fun t => t.trackId == some trackId)
    bridges := data.bridges.filter (fun b => b.trackId == some trackId)
    switches := nearbyFilter track data.switches
    electrification := data.electrification.filter (fun e => e.trackId == some trackId)
    stations := nearbyFilter track data.stations
    yards := nearbyFilter track data.yards
    accessRestrictions := nearbyFilter track data.accessRestrictions }

/-- The transform step of `getSegmentInfrastructure` (lines 314–325):
detail-level reduction applied per record, fresh on every call. -/
def transformSegment (raw : SegmentInfrastructure) (detail : GeometryDetail) :
    SegmentInfrastructure :=
  { trackId := raw.trackId
    track := raw.track.map (fun t => transformTrackGeometry t detail)
    tunnels := raw.tunnels.map (fun t => transformTunnelGeometry t detail)
    bridges := raw.bridges.map (fun b => transformBridgeGeometry b detail)
    switches := raw.switches.map (fun s => transformSwitchGeometry s detail)
    electrification := raw.electrification.map (fun e => transformElectrificationGeometry e detail)
    stations := raw.stations.map (fun s => transformStationGeometry s detail)
    yards := raw.yards.map (fun y => transformYardGeometry y detail)
    accessRestrictions :=
      raw.accessRestrictions.map (fun r => transformAccessRestrictionGeometry r detail) }

/-- `getSegmentInfrastructure` (client lines 256–326): the raw result is
cached under `segment:<trackId>`; the detail transform is applied after
the cache step on every call. -/
def getSegmentInfrastructure (data : Dataset) (trackId : String)
    (geometryDetail : GeometryDetail) (now : ℕ) (cache : Cache SegmentInfrastructure) :
    SegmentInfrastructure × Cache SegmentInfrastructure × Bool :=
  let cacheKey := "segment:" ++ trackId
  match getCached cacheKey now cache with
  | (some rawResult, c₁) => (transformSegment rawResult geometryDetail, c₁, false)
  | (none, c₁) =>
    let rawResult := segmentRaw data trackId
    (transformSegment rawResult geometryDetail, setCache cacheKey rawResult now c₁, true)

/-! ## Properties of the farthest-point scan -/

/-- The scan either keeps its initial state, or returns the distance of one
of the scanned points, at absolute index `i + j`, strictly above the
initial best. -/
theorem findFarthestAux_spec (first last : Q2) (ps : List Q2) :
    ∀ (i : ℕ) (bestD : ℚ) (bestI : ℕ),
      findFarthestAux first last ps i bestD bestI = (bestD, bestI) ∨
      ∃ j p, ps[j]? = some p ∧
        (findFarthestAux first last ps i bestD bestI).2 = i + j ∧
        (findFarthestAux first last ps i bestD bestI).1 = perpDistSq p first last ∧
        bestD < (findFarthestAux first last ps i bestD bestI).1 := by
  induction ps with
  | nil => intro i bestD bestI; left; rfl
  | cons q rest ih =>
    intro i bestD bestI
    by_cases h : bestD < perpDistSq q first last
    · right
      rw [findFarthestAux, if_pos h]
      rcases ih (i + 1) (perpDistSq q first last) i with h0 | ⟨j, p, hj, h2, h1, hlt⟩
      · exact ⟨0, q, by simp, by rw [h0]; simp, by rw [h0], by rw [h0]; exact h⟩
      · exact ⟨j + 1, p, by simpa using hj, by omega, h1, lt_trans h hlt⟩
    · rw [findFarthestAux, if_neg h]
      rcases ih (i + 1) bestD bestI with h0 | ⟨j, p, hj, h2, h1, hlt⟩
      · left; exact h0
      · right; exact ⟨j + 1, p, by simpa using hj, by omega, h1, hlt⟩

/-- The scan result dominates the initial best and every scanned point. -/
theorem findFarthestAux_le (first last : Q2) (ps : List Q2) :
    ∀ (i : ℕ) (bestD : ℚ) (bestI : ℕ),
      bestD ≤ (findFarthestAux first last ps i bestD bestI).1 ∧
      ∀ p ∈ ps, perpDistSq p first last ≤ (findFarthestAux first last ps i bestD bestI).1 := by
  induction ps with
  | nil => intro i bestD bestI; exact ⟨le_refl _, by simp⟩
  | cons q rest ih =>
    intro i bestD bestI
    by_cases h : bestD < perpDistSq q first last
    · rw [findFarthestAux, if_pos h]
      rcases ih (i + 1) (perpDistSq q first last) i with ⟨hle, hmem⟩
      refine ⟨le_trans (le_of_lt h) hle, ?_⟩
      intro p hp
      rcases List.mem_cons.mp hp with rfl | hp
      · exact hle
      · exact hmem p hp
    · rw [findFarthestAux, if_neg h]
      rcases ih (i + 1) bestD bestI with ⟨hle, hmem⟩
      refine ⟨hle, ?_⟩
      intro p hp
      rcases List.mem_cons.mp hp with rfl | hp
      · exact le_trans (le_of_not_lt h) hle
      · exact hmem p hp

/-- If the scan moved away from its initial index then it strictly
improved on the initial best distance. -/
theorem findFarthestAux_ne (first last : Q2) (ps : List Q2) :
    ∀ (i : ℕ) (bestD : ℚ) (bestI : ℕ), bestI < i →
      (findFarthestAux first last ps i bestD bestI).2 ≠ bestI →
      bestD < (findFarthestAux first last ps i bestD bestI).1 := by
  induction ps with
  | nil => intro i bestD bestI _ hne; exact absurd rfl hne
  | cons q rest ih =>
    intro i bestD bestI hlt hne
    by_cases h : bestD < perpDistSq q first last
    · rw [findFarthestAux, if_pos h] at *
      exact lt_of_lt_of_le h (findFarthestAux_le first last rest (i + 1) (perpDistSq q first last) i).1
    · rw [findFarthestAux, if_neg h] at *
      exact ih (i + 1) bestD bestI (Nat.lt_succ_of_lt hlt) hne

/-- Every point scanned strictly before the returned index has distance
strictly below the returned maximum. -/
theorem findFarthestAux_before (first last : Q2) (ps : List Q2) :
    ∀ (i : ℕ) (bestD : ℚ) (bestI : ℕ), bestI < i →
      ∀ j p, ps[j]? = some p → i + j < (findFarthestAux first last ps i bestD bestI).2 →
        perpDistSq p first last < (findFarthestAux first last ps i bestD bestI).1 := by
  induction ps with
  | nil => intro i bestD bestI _ j p hj; simp at hj
  | cons q rest ih =>
    intro i bestD bestI hlt j p hj hbefore
    by_cases h : bestD < perpDistSq q first last
    · rw [findFarthestAux, if_pos h] at *
      match j, hj with
      | 0, hj =>
        have hq : p = q := by simpa using hj.symm
        subst hq
        have hne : (findFarthestAux first last rest (i + 1) (perpDistSq p first last) i).2 ≠ i := by
          omega
        exact findFarthestAux_ne first last rest (i + 1) (perpDistSq p first last) i
          (Nat.lt_succ_self i) hne
      | j' + 1, hj =>
        exact ih (i + 1) (perpDistSq q first last) i (Nat.lt_succ_self i) j' p
          (by simpa using hj) (by omega)
    · rw [findFarthestAux, if_neg h] at *
      match j, hj with
      | 0, hj =>
        have hq : p = q := by simpa using hj.symm
        subst hq
        have hne : (findFarthestAux first last rest (i + 1) bestD bestI).2 ≠ bestI := by omega
        exact lt_of_le_of_lt (le_of_not_lt h)
          (findFarthestAux_ne first last rest (i + 1) bestD bestI (Nat.lt_succ_of_lt hlt) hne)
      | j' + 1, hj =>
        exact ih (i + 1) bestD bestI (Nat.lt_succ_of_lt hlt) j' p (by simpa using hj) (by omega)

/-- A scan over points that never beat the running best leaves the state
unchanged. -/
theorem findFarthestAux_noUpdate (first last : Q2) (ps : List Q2) :
    ∀ (i : ℕ) (bestD : ℚ) (bestI : ℕ),
      (∀ p ∈ ps, perpDistSq p first last ≤ bestD) →
      findFarthestAux first last ps i bestD bestI = (bestD, bestI) := by
  induction ps with
  | nil => intro i bestD bestI _; rfl
  | cons q rest ih =>
    intro i bestD bestI hall
    have hq : ¬ bestD < perpDistSq q first last :=
      not_lt_of_le (hall q (List.mem_cons_self q rest))
    rw [findFarthestAux, if_neg hq]
    exact ih (i + 1) bestD bestI (fun p hp => hall p (List.mem_cons_of_mem q hp))

/-- Determined scan: if the input decomposes as `pre ++ c :: post` where
`c` attains value `D`, everything before is strictly below `D`, everything
after is at most `D`, and the initial best is below `D`, then the scan
returns `D` at the index of `c`. -/
theorem findFarthestAux_argmax (first last : Q2) (D : ℚ) :
    ∀ (pre : List Q2) (c : Q2) (post : List Q2) (i : ℕ) (bestD : ℚ) (bestI : ℕ),
      (∀ p ∈ pre, perpDistSq p first last < D) →
      perpDistSq c first last = D →
      (∀ p ∈ post, perpDistSq p first last ≤ D) →
      bestD < D →
      findFarthestAux first last (pre ++ c :: post) i bestD bestI = (D, i + pre.length) := by
  intro pre
  induction pre with
  | nil =>
    intro c post i bestD bestI _ hc hpost hlt
    have h : bestD < perpDistSq c first last := by rw [hc]; exact hlt
    rw [List.nil_append, findFarthestAux, if_pos h, hc,
      findFarthestAux_noUpdate first last post (i + 1) D i (by simpa [hc] using hpost)]
    simp
  | cons q pre' ih =>
    intro c post i bestD bestI hpre hc hpost hlt
    have hq : perpDistSq q first last < D := hpre q (List.mem_cons_self q pre')
    have hpre' : ∀ p ∈ pre', perpDistSq p first last < D :=
      fun p hp => hpre p (List.mem_cons_of_mem q hp)
    by_cases h : bestD < perpDistSq q first last
    · rw [List.cons_append, findFarthestAux, if_pos h,
        ih c post (i + 1) (perpDistSq q first last) i hpre' hc hpost hq]
      simp; omega
    · rw [List.cons_append, findFarthestAux, if_neg h,
        ih c post (i + 1) bestD bestI hpre' hc hpost hlt]
      simp; omega

/-! ## Unfolding equations for `simplifyPath` -/

/-- Base case: at most two points are returned unchanged. -/
theorem simplifyPath_eq_base (coords : List Q2) (t : ℚ) (h2 : coords.length ≤ 2) :
    simplifyPath coords t = coords := by
  match coords with
  | [] => rfl
  | [a] => rfl
  | [a, b] => rfl
  | a :: b :: c :: rest => simp at h2

/-- When the scan finds a strictly positive maximum it names an interior
point: the returned index is `1 + j` for an index `j` into the interior
list, and the returned value is that point's squared distance. -/
theorem findFarthest_pos (first last : Q2) (mid : List Q2)
    (hpos : 0 < (findFarthestAux first last mid 1 0 0).1) :
    ∃ j p, mid[j]? = some p ∧ j < mid.length ∧
      (findFarthestAux first last mid 1 0 0).2 = 1 + j ∧
      (findFarthestAux first last mid 1 0 0).1 = perpDistSq p first last := by
  rcases findFarthestAux_spec first last mid 1 0 0 with h | ⟨j, p, hj, h2, h1, _⟩
  · rw [h] at hpos; exact absurd hpos (lt_irrefl 0)
  · have hlen : j < mid.length := by
      by_contra hge
      rw [List.getElem?_eq_none (by omega)] at hj
      exact Option.noConfusion hj
    exact ⟨j, p, hj, hlen, h2, h1⟩

/-- One recursion step of the fuelled body, with the head and last point
named. -/
theorem simplifyPathGo_succ (fuel : ℕ) (coords : List Q2) (t : ℚ) (first last : Q2)
    (hf : coords.head? = some first) (hl : coords.getLast? = some last)
    (h2 : ¬ coords.length ≤ 2) :
    simplifyPathGo (fuel + 1) coords t =
      (if t ^ 2 < (findFarthestAux first last ((coords.drop 1).dropLast) 1 0 0).1 then
        (simplifyPathGo fuel
            (coords.take ((findFarthestAux first last ((coords.drop 1).dropLast) 1 0 0).2 + 1))
            t).dropLast
          ++ simplifyPathGo fuel
            (coords.drop (findFarthestAux first last ((coords.drop 1).dropLast) 1 0 0).2) t
      else [first, last]) := by
  simp only [simplifyPathGo, if_neg h2, hf, hl]

/-- Interior length. -/
theorem mid_length (coords : List Q2) :
    ((coords.drop 1).dropLast).length = coords.length - 2 := by
  simp only [List.length_dropLast, List.length_drop]
  omega

/-- Any fuel at least the list length computes `simplifyPath`. -/
theorem simplifyPathGo_fuel : ∀ (fuel : ℕ) (coords : List Q2) (t : ℚ),
    coords.length ≤ fuel → simplifyPathGo fuel coords t = simplifyPath coords t := by
  intro fuel
  induction fuel using Nat.strong_induction_on with
  | _ fuel ih =>
    intro coords t hle
    match fuel with
    | 0 =>
      have h0 : coords = [] := List.eq_nil_of_length_eq_zero (Nat.le_zero.mp hle)
      subst h0; rfl
    | fuel + 1 =>
      by_cases h2 : coords.length ≤ 2
      · rw [simplifyPath_eq_base coords t h2]
        simp only [simplifyPathGo, if_pos h2]
      · have hne : coords ≠ [] := by intro h; subst h; simp at h2
        have hf := List.head?_eq_head hne
        have hl := List.getLast?_eq_getLast coords hne
        obtain ⟨M, hM⟩ : ∃ M, coords.length = M + 1 := ⟨coords.length - 1, by omega⟩
        have hrhs : simplifyPath coords t = simplifyPathGo (M + 1) coords t := by
          rw [simplifyPath, hM]
        rw [hrhs, simplifyPathGo_succ fuel coords t _ _ hf hl h2,
          simplifyPathGo_succ M coords t _ _ hf hl h2]
        by_cases hgt :
            t ^ 2 < (findFarthestAux (coords.head hne) (coords.getLast hne)
              ((coords.drop 1).dropLast) 1 0 0).1
        · rw [if_pos hgt, if_pos hgt]
          obtain ⟨j, p, hj, hjlen, hK2, _⟩ :=
            findFarthest_pos (coords.head hne) (coords.getLast hne) ((coords.drop 1).dropLast)
              (lt_of_le_of_lt (sq_nonneg t) hgt)
          rw [mid_length] at hjlen
          have hTake : (coords.take
              ((findFarthestAux (coords.head hne) (coords.getLast hne)
                ((coords.drop 1).dropLast) 1 0 0).2 + 1)).length ≤ fuel := by
            simp only [List.length_take]; omega
          have hDrop : (coords.drop
              ((findFarthestAux (coords.head hne) (coords.getLast hne)
                ((coords.drop 1).dropLast) 1 0 0).2)).length ≤ fuel := by
            simp only [List.length_drop]; omega
          have hTakeM : (coords.take
              ((findFarthestAux (coords.head hne) (coords.getLast hne)
                ((coords.drop 1).dropLast) 1 0 0).2 + 1)).length ≤ M := by
            simp only [List.length_take]; omega
          have hDropM : (coords.drop
              ((findFarthestAux (coords.head hne) (coords.getLast hne)
                ((coords.drop 1).dropLast) 1 0 0).2)).length ≤ M := by
            simp only [List.length_drop]; omega
          rw [ih fuel (Nat.lt_succ_self fuel) _ t hTake,
            ih M (by omega) _ t hTakeM,
            ih fuel (Nat.lt_succ_self fuel) _ t hDrop,
            ih M (by omega) _ t hDropM]
        · rw [if_neg hgt, if_neg hgt]

/-- Recursive case unfolding of `simplifyPath` itself. -/
theorem simplifyPath_eq_rec (coords : List Q2) (t : ℚ) (first last : Q2)
    (hf : coords.head? = some first) (hl : coords.getLast? = some last)
    (h2 : ¬ coords.length ≤ 2) :
    simplifyPath coords t =
      (if t ^ 2 < (findFarthestAux first last ((coords.drop 1).dropLast) 1 0 0).1 then
        (simplifyPath (coords.take
            ((findFarthestAux first last ((coords.drop 1).dropLast) 1 0 0).2 + 1)) t).dropLast
          ++ simplifyPath (coords.drop
            ((findFarthestAux first last ((coords.drop 1).dropLast) 1 0 0).2)) t
      else [first, last]) := by
  obtain ⟨M, hM⟩ : ∃ M, coords.length = M + 1 := ⟨coords.length - 1, by omega⟩
  have hrhs : simplifyPath coords t = simplifyPathGo (M + 1) coords t := by
    rw [simplifyPath, hM]
  rw [hrhs, simplifyPathGo_succ M coords t _ _ hf hl h2]
  by_cases hgt : t ^ 2 < (findFarthestAux first last ((coords.drop 1).dropLast) 1 0 0).1
  · rw [if_pos hgt, if_pos hgt]
    obtain ⟨j, p, hj, hjlen, hK2, _⟩ :=
      findFarthest_pos first last ((coords.drop 1).dropLast)
        (lt_of_le_of_lt (sq_nonneg t) hgt)
    rw [mid_length] at hjlen
    rw [simplifyPathGo_fuel M _ t (by simp only [List.length_take]; omega),
      simplifyPathGo_fuel M _ t (by simp only [List.length_drop]; omega)]
  · rw [if_neg hgt, if_neg hgt]

/-! ## Structural properties of `simplifyPath` -/

/-- Dropping the final element preserves the sublist relation. -/
theorem sublist_dropLast {s l : List Q2} (h : s.Sublist l) :
    s.dropLast.Sublist l.dropLast := by
  induction h with
  | slnil => simp
  | cons a h ih =>
    rename_i l₁ l₂
    cases l₂ with
    | nil =>
      have h0 : l₁ = [] := List.sublist_nil.mp h
      subst h0; simp
    | cons b l₃ =>
      rw [List.dropLast_cons₂]
      exact ih.cons a
  | cons₂ a h ih =>
    rename_i l₁ l₂
    cases l₁ with
    | nil => simp
    | cons s0 s1 =>
      cases l₂ with
      | nil => exact absurd (List.sublist_nil.mp h) (by simp)
      | cons l0 l3 =>
        rw [List.dropLast_cons₂, List.dropLast_cons₂]
        exact ih.cons₂ a

/-- `dropLast` of a successor-take is the plain take. -/
theorem dropLast_take_succ (l : List Q2) (k : ℕ) (h : k + 1 ≤ l.length) :
    (l.take (k + 1)).dropLast = l.take k := by
  rw [List.dropLast_eq_take, List.take_take, List.length_take]
  congr 1
  omega

/-- Structural bundle for `simplifyPath`: the output is a sublist of the
input, keeps the input's first and last element, and has at least two
points whenever the input does. -/
theorem simplifyPath_props : ∀ (n : ℕ) (coords : List Q2) (t : ℚ), coords.length ≤ n →
    (simplifyPath coords t).Sublist coords ∧
    (simplifyPath coords t).head? = coords.head? ∧
    (simplifyPath coords t).getLast? = coords.getLast? ∧
    (2 ≤ coords.length → 2 ≤ (simplifyPath coords t).length) := by
  intro n
  induction n with
  | zero =>
    intro coords t hle
    have h0 : coords = [] := List.eq_nil_of_length_eq_zero (Nat.le_zero.mp hle)
    subst h0
    rw [simplifyPath_eq_base _ _ (by simp)]
    exact ⟨List.Sublist.refl _, rfl, rfl, by simp⟩
  | succ n ih =>
    intro coords t hle
    by_cases h2 : coords.length ≤ 2
    · rw [simplifyPath_eq_base coords t h2]
      exact ⟨List.Sublist.refl _, rfl, rfl, fun h => h⟩
    · have hne : coords ≠ [] := fun h => h2 (by simp [h])
      have hf := List.head?_eq_head hne
      have hl := List.getLast?_eq_getLast coords hne
      rw [simplifyPath_eq_rec coords t _ _ hf hl h2]
      by_cases hgt : t ^ 2 < (findFarthestAux (coords.head hne) (coords.getLast hne)
          ((coords.drop 1).dropLast) 1 0 0).1
      · rw [if_pos hgt]
        obtain ⟨j, p, hj, hjlen, hK2, _⟩ :=
          findFarthest_pos _ _ _ (lt_of_le_of_lt (sq_nonneg t) hgt)
        rw [mid_length] at hjlen
        set K := (findFarthestAux (coords.head hne) (coords.getLast hne)
          ((coords.drop 1).dropLast) 1 0 0).2 with hKdef
        have hK1 : 1 ≤ K := by omega
        have hKle : K ≤ coords.length - 2 := by omega
        have hlen3 : 3 ≤ coords.length := by omega
        obtain ⟨HsubL, HheadL, HlastL, HlenL⟩ :=
          ih (coords.take (K + 1)) t (by simp only [List.length_take]; omega)
        obtain ⟨HsubR, HheadR, HlastR, HlenR⟩ :=
          ih (coords.drop K) t (by simp only [List.length_drop]; omega)
        have hTakeLen : (coords.take (K + 1)).length = K + 1 := by
          simp only [List.length_take]; omega
        have hDropLen : (coords.drop K).length = coords.length - K := by simp
        have hL2 : 2 ≤ (simplifyPath (coords.take (K + 1)) t).length :=
          HlenL (by omega)
        have hR2 : 2 ≤ (simplifyPath (coords.drop K) t).length :=
          HlenR (by omega)
        refine ⟨?_, ?_, ?_, ?_⟩
        · have h1 : (simplifyPath (coords.take (K + 1)) t).dropLast.Sublist (coords.take K) := by
            have hd := sublist_dropLast HsubL
            rwa [dropLast_take_succ coords K (by omega)] at hd
          have hall := List.Sublist.append h1 HsubR
          rwa [List.take_append_drop] at hall
        · rw [List.head?_append]
          have hdl : (simplifyPath (coords.take (K + 1)) t).dropLast.head? = coords.head? := by
            rw [List.head?_dropLast, if_pos (by omega), HheadL, List.head?_take,
              if_neg (by omega)]
          rw [hdl, hf]
          rfl
        · rw [List.getLast?_append]
          have hR : (simplifyPath (coords.drop K) t).getLast? = coords.getLast? := by
            rw [HlastR, List.getLast?_drop, if_neg (by omega)]
          rw [hR, hl]
          rfl
        · intro _
          rw [List.length_append, List.length_dropLast]
          omega
      · rw [if_neg hgt]
        have hfmem : coords.head hne ∈ coords.dropLast := by
          have hh : (coords.dropLast).head? = some (coords.head hne) := by
            rw [List.head?_dropLast, if_pos (by omega), hf]
          exact List.mem_of_mem_head? (by rw [hh]; rfl)
        refine ⟨?_, hf.symm, ?_, fun _ => le_refl 2⟩
        · have hs : List.Sublist ([coords.head hne] ++ [coords.getLast hne])
              (coords.dropLast ++ [coords.getLast hne]) :=
            List.Sublist.append (List.singleton_sublist.mpr hfmem) (List.Sublist.refl _)
          rwa [List.dropLast_append_getLast hne] at hs
        · rw [hl]
          rfl

/-! ## Idempotence of `simplifyPath` -/

/-- Taking few enough elements commutes with `dropLast`. -/
theorem take_dropLast_comm (l : List Q2) (m : ℕ) (h : m ≤ l.length - 1) :
    l.dropLast.take m = l.take m := by
  rw [List.dropLast_eq_take, List.take_take]
  congr 1
  omega

/-- `dropLast` commutes with `drop`. -/
theorem dropLast_drop_comm (l : List Q2) (k : ℕ) :
    l.dropLast.drop k = (l.drop k).dropLast := by
  rw [List.dropLast_eq_take, List.drop_take, List.dropLast_eq_take, List.length_drop]
  congr 1
  omega

/-- Interior elements of a sublist are interior elements of the larger
list. -/
theorem interior_subset_of_sublist {s l : List Q2} (h : s.Sublist l) :
    ∀ p ∈ (s.drop 1).dropLast, p ∈ (l.drop 1).dropLast := by
  intro p hp
  exact (sublist_dropLast (h.drop 1)).subset hp

/-- The interior of a truncation `take (K + 1)` is a truncation of the
interior. -/
theorem interior_take (l : List Q2) (K : ℕ) (h1 : 1 ≤ K) (h2 : K ≤ l.length - 2) :
    ((l.take (K + 1)).drop 1).dropLast = ((l.drop 1).dropLast).take (K - 1) := by
  obtain ⟨K', rfl⟩ : ∃ K', K = K' + 1 := ⟨K - 1, by omega⟩
  rw [List.drop_take]
  simp only [Nat.add_sub_cancel]
  rw [dropLast_take_succ (l.drop 1) K' (by simp only [List.length_drop]; omega),
    take_dropLast_comm (l.drop 1) K' (by simp only [List.length_drop]; omega)]

/-- The interior of a tail `drop K` is a tail of the interior. -/
theorem interior_drop (l : List Q2) (K : ℕ) :
    ((l.drop K).drop 1).dropLast = ((l.drop 1).dropLast).drop K := by
  rw [dropLast_drop_comm, List.drop_drop, List.drop_drop]
  congr 2
  omega

/-- Elements of `l.take m` have an index below `m`. -/
theorem mem_take_getElem (l : List Q2) (m : ℕ) (p : Q2) (hp : p ∈ l.take m) :
    ∃ j, j < m ∧ l[j]? = some p := by
  obtain ⟨j, hj⟩ := List.mem_iff_getElem?.mp hp
  have hjm : j < m := by
    by_contra hge
    rw [List.getElem?_take_eq_none (by omega)] at hj
    exact Option.noConfusion hj
  exact ⟨j, hjm, by rwa [List.getElem?_take_of_lt hjm] at hj⟩

/-- Douglas–Peucker is idempotent: re-simplifying its own output with the
same tolerance reproduces it. -/
theorem simplifyPath_idem_aux : ∀ (n : ℕ) (coords : List Q2) (t : ℚ), coords.length ≤ n →
    simplifyPath (simplifyPath coords t) t = simplifyPath coords t := by
  intro n
  induction n with
  | zero =>
    intro coords t hle
    have h0 : coords = [] := List.eq_nil_of_length_eq_zero (Nat.le_zero.mp hle)
    subst h0
    have h0' := simplifyPath_eq_base ([] : List Q2) t (by simp)
    rw [h0']
    exact h0'
  | succ n ih =>
    intro coords t hle
    by_cases h2 : coords.length ≤ 2
    · rw [simplifyPath_eq_base coords t h2, simplifyPath_eq_base coords t h2]
    · have hne : coords ≠ [] := fun h => h2 (by simp [h])
      have hf := List.head?_eq_head hne
      have hl := List.getLast?_eq_getLast coords hne
      have Hcomb := simplifyPath_props (n + 1) coords t hle
      rw [simplifyPath_eq_rec coords t _ _ hf hl h2] at Hcomb ⊢
      by_cases hgt : t ^ 2 < (findFarthestAux (coords.head hne) (coords.getLast hne)
          ((coords.drop 1).dropLast) 1 0 0).1
      · rw [if_pos hgt] at Hcomb ⊢
        obtain ⟨j, p, hj, hjlen, hK2, hD⟩ :=
          findFarthest_pos _ _ _ (lt_of_le_of_lt (sq_nonneg t) hgt)
        rw [mid_length] at hjlen
        set K := (findFarthestAux (coords.head hne) (coords.getLast hne)
          ((coords.drop 1).dropLast) 1 0 0).2 with hKdef
        set D := (findFarthestAux (coords.head hne) (coords.getLast hne)
          ((coords.drop 1).dropLast) 1 0 0).1 with hDdef
        have hDpos : (0 : ℚ) < D := lt_of_le_of_lt (sq_nonneg t) hgt
        have hK1 : 1 ≤ K := by omega
        have hKle : K ≤ coords.length - 2 := by omega
        have hlen3 : 3 ≤ coords.length := by omega
        obtain ⟨HsubL, HheadL, HlastL, HlenL⟩ :=
          simplifyPath_props n (coords.take (K + 1)) t (by simp only [List.length_take]; omega)
        obtain ⟨HsubR, HheadR, HlastR, HlenR⟩ :=
          simplifyPath_props n (coords.drop K) t (by simp only [List.length_drop]; omega)
        set L := simplifyPath (coords.take (K + 1)) t with hLdef
        set R := simplifyPath (coords.drop K) t with hRdef
        have hTakeLen : (coords.take (K + 1)).length = K + 1 := by
          simp only [List.length_take]; omega
        have hL2 : 2 ≤ L.length := HlenL (by omega)
        have hR2 : 2 ≤ R.length := HlenR (by simp only [List.length_drop]; omega)
        -- the split point sits at index K of the original list
        have hcoordsK : coords[K]? = some p := by
          rw [List.getElem?_dropLast, if_pos (by simp only [List.length_drop]; omega),
            List.getElem?_drop] at hj
          rw [hK2]
          exact hj
        have hcLast : L.getLast? = some p := by
          rw [HlastL, List.getLast?_take, if_neg (by omega)]
          simp only [Nat.add_sub_cancel]
          rw [hcoordsK]
          rfl
        have hcHead : R.head? = some p := by
          rw [HheadR, List.head?_drop]
          exact hcoordsK
        obtain ⟨rtail, hRdecomp⟩ := List.head?_eq_some_iff.mp hcHead
        have hrtailne : rtail ≠ [] := by
          intro h0
          rw [h0] at hRdecomp
          rw [hRdecomp] at hR2
          simp at hR2
        have hLdecomp : L.dropLast ++ [p] = L :=
          List.dropLast_append_getLast? p hcLast
        -- head, last and length of the combined output
        have hcombhead : (L.dropLast ++ R).head? = some (coords.head hne) :=
          Hcomb.2.1.trans hf
        have hcomblast : (L.dropLast ++ R).getLast? = some (coords.getLast hne) :=
          Hcomb.2.2.1.trans hl
        have hcombh2 : ¬ (L.dropLast ++ R).length ≤ 2 := by
          rw [List.length_append, List.length_dropLast]
          omega
        -- interior of the combined output
        have hlen1 : 1 ≤ (L.dropLast).length := by rw [List.length_dropLast]; omega
        have hinterior : (((L.dropLast ++ R).drop 1)).dropLast
            = (L.dropLast).drop 1 ++ (p :: rtail.dropLast) := by
          rw [List.drop_append_of_le_length hlen1, hRdecomp,
            List.dropLast_append_cons, List.dropLast_cons_of_ne_nil hrtailne]
        -- distances of the interior elements
        have hpre : ∀ q ∈ (L.dropLast).drop 1,
            perpDistSq q (coords.head hne) (coords.getLast hne) < D := by
          intro q hq
          have hq1 : q ∈ (L.drop 1).dropLast := by rwa [dropLast_drop_comm] at hq
          have hq2 : q ∈ ((coords.take (K + 1)).drop 1).dropLast :=
            interior_subset_of_sublist HsubL q hq1
          rw [interior_take coords K hK1 hKle] at hq2
          obtain ⟨j', hj'm, hj'⟩ := mem_take_getElem _ _ _ hq2
          have := findFarthestAux_before (coords.head hne) (coords.getLast hne)
            ((coords.drop 1).dropLast) 1 0 0 (by omega) j' q hj' (by omega)
          rwa [← hDdef] at this
        have hpost : ∀ q ∈ rtail.dropLast,
            perpDistSq q (coords.head hne) (coords.getLast hne) ≤ D := by
          intro q hq
          have hq1 : q ∈ (R.drop 1).dropLast := by
            rw [hRdecomp]
            simpa using hq
          have hq2 : q ∈ ((coords.drop K).drop 1).dropLast :=
            interior_subset_of_sublist HsubR q hq1
          rw [interior_drop coords K] at hq2
          have hq3 : q ∈ (coords.drop 1).dropLast := (List.drop_subset _ _) hq2
          have := (findFarthestAux_le (coords.head hne) (coords.getLast hne)
            ((coords.drop 1).dropLast) 1 0 0).2 q hq3
          rwa [← hDdef] at this
        have hpval : perpDistSq p (coords.head hne) (coords.getLast hne) = D := hD.symm
        -- unfold the outer simplification of the combined output
        rw [simplifyPath_eq_rec (L.dropLast ++ R) t _ _ hcombhead hcomblast hcombh2,
          hinterior,
          findFarthestAux_argmax (coords.head hne) (coords.getLast hne) D
            ((L.dropLast).drop 1) p rtail.dropLast 1 0 0 hpre hpval hpost hDpos]
        have hpreLen : ((L.dropLast).drop 1).length = L.length - 2 := by
          simp only [List.length_drop, List.length_dropLast]
          omega
        rw [if_pos (show t ^ 2 < (D, 1 + ((L.dropLast).drop 1).length).1 from hgt)]
        -- the two recursive inputs are exactly L and R
        have hsplit : 1 + ((L.dropLast).drop 1).length = L.dropLast.length := by
          rw [hpreLen, List.length_dropLast]
          omega
        have htakeL : (L.dropLast ++ R).take ((D, 1 + ((L.dropLast).drop 1).length).2 + 1)
            = L := by
          show (L.dropLast ++ R).take (1 + ((L.dropLast).drop 1).length + 1) = L
          rw [show 1 + ((L.dropLast).drop 1).length + 1 = L.dropLast.length + 1 by omega,
            List.take_append, hRdecomp]
          show L.dropLast ++ [p] = L
          exact hLdecomp
        have hdropR : (L.dropLast ++ R).drop ((D, 1 + ((L.dropLast).drop 1).length).2)
            = R := by
          show (L.dropLast ++ R).drop (1 + ((L.dropLast).drop 1).length) = R
          rw [show 1 + ((L.dropLast).drop 1).length = (L.dropLast).length from hsplit]
          exact List.drop_left (L.dropLast) R
        rw [htakeL, hdropR]
        have hidemL : simplifyPath L t = L := by
          rw [hLdef]
          exact ih (coords.take (K + 1)) t (by simp only [List.length_take]; omega)
        have hidemR : simplifyPath R t = R := by
          rw [hRdef]
          exact ih (coords.drop K) t (by simp only [List.length_drop]; omega)
        rw [hidemL, hidemR]
      · rw [if_neg hgt]
        exact simplifyPath_eq_base _ t (by simp)

/-! ## Shared characterizations -/

/-- `isPointInBBox` decides the inclusive four-inequality conjunction. -/
theorem isPointInBBox_iff (lon lat : ℚ) (b : BBox) :
    isPointInBBox lon lat b = true ↔
      (b.minLon ≤ lon ∧ lon ≤ b.maxLon ∧ b.minLat ≤ lat ∧ lat ≤ b.maxLat) := by
  simp [isPointInBBox]
  tauto

/-- A box violating an axis ordering contains no point. -/
theorem isPointInBBox_inverted (b : BBox)
    (hinv : b.maxLon < b.minLon ∨ b.maxLat < b.minLat) (lon lat : ℚ) :
    isPointInBBox lon lat b = false := by
  rcases Bool.eq_false_or_eq_true (isPointInBBox lon lat b) with h | h
  · exfalso
    obtain ⟨h1, h2, h3, h4⟩ := (isPointInBBox_iff lon lat b).mp h
    rcases hinv with h5 | h5 <;> linarith
  · exact h

/-! ## Claim theorems -/

/-- C1 counterexample: a three-point tunnel LineString is collapsed to its
endpoints by `formatLineStructureGeometry` and `formatStructureGeometry`
even at detail level `precise`, contradicting the claim that `precise`
returns every geometry unmodified. -/
theorem claim1_counterexample :
    formatLineStructureGeometry [((0 : ℚ), (0 : ℚ)), (1, 1), (2, 0)] .precise
        = some [((0 : ℚ), (0 : ℚ)), (2, 0)] ∧
    formatLineStructureGeometry [((0 : ℚ), (0 : ℚ)), (1, 1), (2, 0)] .precise
        ≠ some [((0 : ℚ), (0 : ℚ)), (1, 1), (2, 0)] ∧
    formatStructureGeometry (.line [((0 : ℚ), (0 : ℚ)), (1, 1), (2, 0)]) .precise
        ≠ some (.line [((0 : ℚ), (0 : ℚ)), (1, 1), (2, 0)]) := by
  exact ⟨by decide, by decide, by decide⟩

/-- C1 (amended): at detail `precise`, `formatLineGeometry`,
`formatPointGeometry`, and `formatStructureGeometry` on points return the
geometry unmodified, as does `formatLineStructureGeometry` /
`formatStructureGeometry` on LineStrings of at most two points; a structure
LineString with more than two points is collapsed to exactly its first and
last point at `precise` just as at `corridor`. -/
theorem claim1_precise_amended (cs : List Q2) (pt : Q2) :
    formatLineGeometry cs .precise = some cs ∧
    formatPointGeometry pt .precise = some pt ∧
    formatStructureGeometry (.point pt) .precise = some (.point pt) ∧
    (cs.length ≤ 2 →
      formatLineStructureGeometry cs .precise = some cs ∧
      formatStructureGeometry (.line cs) .precise = some (.line cs)) ∧
    (2 < cs.length →
      formatLineStructureGeometry cs .precise = some (firstLast cs) ∧
      formatLineStructureGeometry cs .precise = formatLineStructureGeometry cs .corridor ∧
      formatStructureGeometry (.line cs) .precise = some (.line (firstLast cs))) := by
  refine ⟨rfl, rfl, rfl, fun h => ⟨?_, ?_⟩, fun h => ?_⟩
  · simp [formatLineStructureGeometry, h]
  · simp [formatStructureGeometry, h]
  · have h2 : ¬ cs.length ≤ 2 := by omega
    refine ⟨?_, ?_, ?_⟩
    · simp [formatLineStructureGeometry, h2]
    · simp [formatLineStructureGeometry, h2]
    · simp [formatStructureGeometry, h2]

/-- C1 amended, witnessed at a concrete three-point LineString. -/
theorem claim1_precise_amended_witness :
    2 < ([((0 : ℚ), (0 : ℚ)), (1, 1), (2, 0)] : List Q2).length ∧
    formatLineStructureGeometry [((0 : ℚ), (0 : ℚ)), (1, 1), (2, 0)] .precise
      = some (firstLast [((0 : ℚ), (0 : ℚ)), (1, 1), (2, 0)]) :=
  ⟨by decide,
    ((claim1_precise_amended [((0 : ℚ), (0 : ℚ)), (1, 1), (2, 0)] (0, 0)).2.2.2.2
      (by decide)).1⟩

/-- C5: for a polyline with at least two points and positive tolerance,
`simplifyPath` returns a subsequence of the input that keeps the first and
last point and is never longer than the input. -/
theorem claim5_simplify_endpoints (P : List Q2) (t : ℚ) (_hlen : 2 ≤ P.length)
    (_ht : 0 < t) :
    (simplifyPath P t).Sublist P ∧
    (simplifyPath P t).head? = P.head? ∧
    (simplifyPath P t).getLast? = P.getLast? ∧
    (simplifyPath P t).length ≤ P.length := by
  obtain ⟨hs, hh, hl, _⟩ := simplifyPath_props P.length P t (le_refl _)
  exact ⟨hs, hh, hl, hs.length_le⟩

/-- C5 witnessed on a concrete three-point polyline. -/
theorem claim5_simplify_endpoints_witness :
    2 ≤ ([((0 : ℚ), (0 : ℚ)), (1, 1), (2, 0)] : List Q2).length ∧ (0 : ℚ) < 1 ∧
    ((simplifyPath [((0 : ℚ), (0 : ℚ)), (1, 1), (2, 0)] 1).Sublist
        [((0 : ℚ), (0 : ℚ)), (1, 1), (2, 0)] ∧
      (simplifyPath [((0 : ℚ), (0 : ℚ)), (1, 1), (2, 0)] 1).head?
        = ([((0 : ℚ), (0 : ℚ)), (1, 1), (2, 0)] : List Q2).head? ∧
      (simplifyPath [((0 : ℚ), (0 : ℚ)), (1, 1), (2, 0)] 1).getLast?
        = ([((0 : ℚ), (0 : ℚ)), (1, 1), (2, 0)] : List Q2).getLast? ∧
      (simplifyPath [((0 : ℚ), (0 : ℚ)), (1, 1), (2, 0)] 1).length
        ≤ ([((0 : ℚ), (0 : ℚ)), (1, 1), (2, 0)] : List Q2).length) :=
  ⟨by decide, by decide,
    claim5_simplify_endpoints [((0 : ℚ), (0 : ℚ)), (1, 1), (2, 0)] 1
      (by decide) (by decide)⟩

/-- C6: `simplifyPath` is idempotent — simplifying an already-simplified
polyline with the same tolerance returns it unchanged. -/
theorem claim6_simplify_idempotent (P : List Q2) (t : ℚ) (_ht : 0 < t) :
    simplifyPath (simplifyPath P t) t = simplifyPath P t :=
  simplifyPath_idem_aux P.length P t (le_refl _)

/-- C6 witnessed on a concrete five-point zig-zag. -/
theorem claim6_simplify_idempotent_witness :
    (0 : ℚ) < 1 ∧
    simplifyPath (simplifyPath [((0 : ℚ), (0 : ℚ)), (1, 1), (2, 0), (3, 1), (4, 0)]
        1) 1
      = simplifyPath [((0 : ℚ), (0 : ℚ)), (1, 1), (2, 0), (3, 1), (4, 0)] 1 :=
  ⟨by decide,
    claim6_simplify_idempotent [((0 : ℚ), (0 : ℚ)), (1, 1), (2, 0), (3, 1), (4, 0)]
      1 (by decide)⟩

/-- C7: `geometryIntersectsBBox` on a point is exactly `isPointInBBox`
(an inclusive per-axis range test), and on a LineString it is true iff some
vertex lies in the box; a concrete polyline crossing the box with no vertex
inside is reported as not intersecting. -/
theorem claim7_bbox_intersection :
    (∀ (b : BBox) (p : Q2),
      geometryIntersectsBBox (.point p) b = isPointInBBox p.1 p.2 b) ∧
    (∀ (b : BBox) (lon lat : ℚ), isPointInBBox lon lat b = true ↔
      (b.minLon ≤ lon ∧ lon ≤ b.maxLon ∧ b.minLat ≤ lat ∧ lat ≤ b.maxLat)) ∧
    (∀ (b : BBox) (cs : List Q2), geometryIntersectsBBox (.lineString cs) b = true ↔
      ∃ v ∈ cs, isPointInBBox v.1 v.2 b = true) ∧
    geometryIntersectsBBox (.lineString [((-1 : ℚ), (1 : ℚ)), (3, 1)])
      ⟨0, 0, 2, 2⟩ = false := by
  refine ⟨fun b p => rfl, fun b lon lat => isPointInBBox_iff lon lat b,
    fun b cs => ?_, by decide⟩
  simp [geometryIntersectsBBox, List.any_eq_true]

/-- C7 witnessed at a concrete point and box. -/
theorem claim7_bbox_intersection_witness :
    geometryIntersectsBBox (.point ((12 : ℚ), (56 : ℚ))) ⟨11, 55, 13, 57⟩
      = isPointInBBox 12 56 ⟨11, 55, 13, 57⟩ :=
  claim7_bbox_intersection.1 ⟨11, 55, 13, 57⟩ ((12 : ℚ), (56 : ℚ))

/-- C9: the one-shot proximity test `isStationNearTrack` coincides with the
pre-simplified pipeline (`simplifyTrackForStationFilter` followed by
`isPointNearSimplifiedTrack`) on every input. -/
theorem claim9_proximity_equivalence (station : Q2) (track : List Q2)
    (threshold : ℚ) :
    isStationNearTrack station track threshold =
      isPointNearSimplifiedTrack station (simplifyTrackForStationFilter track)
        threshold := rfl

/-- C4 counterexample: the bbox `"18,59,17,58"` violates both min ≤ max
invariants, yet `parseBBox` accepts it verbatim and the `bboxSchema` format
check passes — validation does not reject it. -/
theorem claim4_counterexample :
    parseBBox "18,59,17,58" = .ok ⟨18, 59, 17, 58⟩ ∧
    (17 : ℚ) < 18 ∧ (58 : ℚ) < 59 ∧
    bboxSchemaAccepts "18,59,17,58" = true := by
  refine ⟨by rfl, by decide, by decide, by decide⟩

/-- C4 (amended): neither `parseBBox` nor the schema checks min ≤ max — an
inverted box is accepted (see the counterexample) and is never silently
corrected; instead it matches no point and no geometry, so every by-region
query over it returns the empty list rather than a validation error. -/
theorem claim4_bbox_amended (b : BBox)
    (hinv : b.maxLon < b.minLon ∨ b.maxLat < b.minLat) :
    (∀ lon lat : ℚ, isPointInBBox lon lat b = false) ∧
    (∀ g : Geometry, geometryIntersectsBBox g b = false) ∧
    (∀ (γ : Type) (toGeom : γ → Geometry) (items : List (Rec γ)),
      bboxFilter toGeom items b = []) ∧
    (∀ (γ : Type) (toGeom : γ → Geometry)
      (transformFn : Rec γ → GeometryDetail → Rec γ) (items : List (Rec γ))
      (limit : Option ℕ) (d : GeometryDetail) (now : ℕ),
      (runBBoxQuery toGeom transformFn none items b limit d now []).1 = []) := by
  have hpt := isPointInBBox_inverted b hinv
  have hgeom : ∀ g : Geometry, geometryIntersectsBBox g b = false := by
    intro g
    cases g with
    | point c => exact hpt c.1 c.2
    | lineString cs => simp [geometryIntersectsBBox, hpt]
    | polygon rings => simp [geometryIntersectsBBox, hpt]
  have hfilter : ∀ (γ : Type) (toGeom : γ → Geometry) (items : List (Rec γ)),
      bboxFilter toGeom items b = [] := by
    intro γ toGeom items
    rw [bboxFilter, List.filter_eq_nil_iff]
    intro it _
    cases hg : it.geometry with
    | none => simp
    | some g => simp [hgeom (toGeom g)]
  refine ⟨hpt, hgeom, hfilter, ?_⟩
  intro γ toGeom transformFn items limit d now
  show ((bboxFilter toGeom items b).take (effLimit limit)).map
      (fun it => transformFn it d) = []
  rw [hfilter]
  simp

/-- C4 amended, witnessed at the inverted box from the counterexample
string. -/
theorem claim4_bbox_amended_witness :
    ((18 : ℚ) < 18 ∨ (58 : ℚ) < 59) ∧
    isPointInBBox 17 58 ⟨18, 59, 17, 58⟩ = false :=
  ⟨Or.inr (by norm_num),
    (claim4_bbox_amended ⟨18, 59, 17, 58⟩ (Or.inr (by norm_num))).1 17 58⟩

/-- A query with no cache tag never touches the cache: the result is the
limit-truncated filtered list transformed per record, the cache is returned
unchanged, and the dataset is scanned. -/
theorem runBBoxQuery_nocache (toGeom : γ → Geometry)
    (transformFn : Rec γ → GeometryDetail → Rec γ) (items : List (Rec γ))
    (b : BBox) (limit : Option ℕ) (d : GeometryDetail) (now : ℕ)
    (cache : Cache (List (Rec γ))) :
    runBBoxQuery toGeom transformFn none items b limit d now cache
      = (((bboxFilter toGeom items b).take (effLimit limit)).map
          (fun it => transformFn it d), cache, true) := rfl

/-- A tagged query on an empty cache scans, and stores the raw filtered
list (not the transformed one) under the bbox key. -/
theorem runBBoxQuery_tagged_first (toGeom : γ → Geometry)
    (transformFn : Rec γ → GeometryDetail → Rec γ) (tag : String)
    (items : List (Rec γ)) (b : BBox) (limit : Option ℕ) (d : GeometryDetail)
    (now : ℕ) :
    runBBoxQuery toGeom transformFn (some tag) items b limit d now []
      = (((bboxFilter toGeom items b).take (effLimit limit)).map
          (fun it => transformFn it d),
         [(bboxCacheKey tag b, ⟨bboxFilter toGeom items b, now⟩)], true) := rfl

/-- Reading a single fresh entry back. -/
theorem getCached_single_fresh (key : String) (dataV : α) (ts now : ℕ)
    (h : now - ts ≤ CACHE_TTL) :
    getCached key now [(key, ⟨dataV, ts⟩)] = (some dataV, [(key, ⟨dataV, ts⟩)]) := by
  have hfind : cacheLookup [(key, (⟨dataV, ts⟩ : CacheEntry α))] key
      = some ⟨dataV, ts⟩ := by
    simp [cacheLookup, List.find?]
  rw [getCached, hfind]
  simp only [if_neg (by omega : ¬ CACHE_TTL < now - ts)]

/-- A tagged query repeated within the TTL reuses the cached raw list
without scanning; the detail-level transform is applied fresh to the cached
raw records. -/
theorem runBBoxQuery_tagged_hit (toGeom : γ → Geometry)
    (transformFn : Rec γ → GeometryDetail → Rec γ) (tag : String)
    (items : List (Rec γ)) (b : BBox) (limit : Option ℕ) (d : GeometryDetail)
    (raw : List (Rec γ)) (ts now : ℕ) (h : now - ts ≤ CACHE_TTL) :
    runBBoxQuery toGeom transformFn (some tag) items b limit d now
        [(bboxCacheKey tag b, ⟨raw, ts⟩)]
      = ((raw.take (effLimit limit)).map (fun it => transformFn it d),
         [(bboxCacheKey tag b, ⟨raw, ts⟩)], false) := by
  rw [runBBoxQuery, getCached_single_fresh _ _ _ _ h]

/-- First segment query: scans and caches the raw result. -/
theorem getSegment_first (data : Dataset) (trackId : String) (d : GeometryDetail)
    (now : ℕ) :
    getSegmentInfrastructure data trackId d now []
      = (transformSegment (segmentRaw data trackId) d,
         [("segment:" ++ trackId, ⟨segmentRaw data trackId, now⟩)], true) := rfl

/-- Repeated segment query within the TTL: no scan, raw result reused,
detail transform recomputed. -/
theorem getSegment_hit (data : Dataset) (trackId : String) (d : GeometryDetail)
    (raw : SegmentInfrastructure) (ts now : ℕ) (h : now - ts ≤ CACHE_TTL) :
    getSegmentInfrastructure data trackId d now [("segment:" ++ trackId, ⟨raw, ts⟩)]
      = (transformSegment raw d, [("segment:" ++ trackId, ⟨raw, ts⟩)], false) := by
  rw [getSegmentInfrastructure, getCached_single_fresh _ _ _ _ h]

/-- C2 counterexample: with `limit = 0` and a dataset in which 2 records
pass the bbox filter, the tunnels by-region query returns 2 records, not
the 0 the claim's universal quantification over every limit value demands
(`limit || 100` treats 0 as unset). -/
theorem claim2_counterexample :
    ((getTunnelsByBBox
        [⟨"t1", none, none, "", some [((12 : ℚ), (56 : ℚ))]⟩,
         ⟨"t2", none, none, "", some [((12 : ℚ), (56 : ℚ))]⟩]
        ⟨11, 55, 13, 57⟩ (some 0) .precise 0 []).1).length = 2 ∧
    0 < (bboxFilter lineToGeometry
        [⟨"t1", none, none, "", some [((12 : ℚ), (56 : ℚ))]⟩,
         ⟨"t2", none, none, "", some [((12 : ℚ), (56 : ℚ))]⟩]
        ⟨11, 55, 13, 57⟩).length ∧
    (2 : ℕ) ≠ 0 := by
  exact ⟨by decide, by decide, by decide⟩

/-- C2 (amended): for every limit `N ≥ 1`, when more than `N` records pass
the bbox filter the query returns exactly `N` records, namely the
per-record transform applied to the first `N` records of the filtered list
in its original order — the truncation happens before the geometry
transform runs on any record. -/
theorem claim2_limit_amended (toGeom : γ → Geometry)
    (transformFn : Rec γ → GeometryDetail → Rec γ) (tag : Option String)
    (items : List (Rec γ)) (b : BBox) (N : ℕ) (d : GeometryDetail) (now : ℕ)
    (hN : 1 ≤ N) (hmore : N < (bboxFilter toGeom items b).length) :
    (runBBoxQuery toGeom transformFn tag items b (some N) d now []).1
        = ((bboxFilter toGeom items b).take N).map (fun it => transformFn it d) ∧
    ((runBBoxQuery toGeom transformFn tag items b (some N) d now []).1).length = N := by
  obtain ⟨n, rfl⟩ : ∃ n, N = n + 1 := ⟨N - 1, by omega⟩
  have hres : (runBBoxQuery toGeom transformFn tag items b (some (n + 1)) d now []).1
      = ((bboxFilter toGeom items b).take (n + 1)).map (fun it => transformFn it d) := by
    cases tag with
    | none => rfl
    | some tg => rfl
  refine ⟨hres, ?_⟩
  rw [hres, List.length_map, List.length_take]
  omega

/-- C2 amended, witnessed: `limit = 1` against 2 matching records returns
exactly 1. -/
theorem claim2_limit_amended_witness :
    1 ≤ 1 ∧
    1 < (bboxFilter lineToGeometry
        [⟨"t1", none, none, "", some [((12 : ℚ), (56 : ℚ))]⟩,
         ⟨"t2", none, none, "", some [((12 : ℚ), (56 : ℚ))]⟩]
        ⟨11, 55, 13, 57⟩).length ∧
    ((runBBoxQuery lineToGeometry transformTunnelGeometry none
        [⟨"t1", none, none, "", some [((12 : ℚ), (56 : ℚ))]⟩,
         ⟨"t2", none, none, "", some [((12 : ℚ), (56 : ℚ))]⟩]
        ⟨11, 55, 13, 57⟩ (some 1) .precise 0 []).1).length = 1 :=
  ⟨by decide, by decide,
    (claim2_limit_amended lineToGeometry transformTunnelGeometry none
        [⟨"t1", none, none, "", some [((12 : ℚ), (56 : ℚ))]⟩,
         ⟨"t2", none, none, "", some [((12 : ℚ), (56 : ℚ))]⟩]
        ⟨11, 55, 13, 57⟩ 1 .precise 0 (by decide) (by decide)).2⟩

/-- C10: an omitted limit and a limit of 0 both fall back to the default of
100 — the query returns the transform of the first (at most) 100 filtered
records, and a caller passing `limit = 0` gets a nonempty result whenever
anything matches. -/
theorem claim10_default_limit (toGeom : γ → Geometry)
    (transformFn : Rec γ → GeometryDetail → Rec γ) (tag : Option String)
    (items : List (Rec γ)) (b : BBox) (d : GeometryDetail) (now : ℕ) :
    (runBBoxQuery toGeom transformFn tag items b none d now []).1
        = ((bboxFilter toGeom items b).take 100).map (fun it => transformFn it d) ∧
    (runBBoxQuery toGeom transformFn tag items b (some 0) d now []).1
        = ((bboxFilter toGeom items b).take 100).map (fun it => transformFn it d) ∧
    ((runBBoxQuery toGeom transformFn tag items b (some 0) d now []).1).length ≤ 100 ∧
    (bboxFilter toGeom items b ≠ [] →
      (runBBoxQuery toGeom transformFn tag items b (some 0) d now []).1 ≠ []) := by
  have h1 : (runBBoxQuery toGeom transformFn tag items b none d now []).1
      = ((bboxFilter toGeom items b).take 100).map (fun it => transformFn it d) := by
    cases tag with
    | none => rfl
    | some tg => rfl
  have h2 : (runBBoxQuery toGeom transformFn tag items b (some 0) d now []).1
      = ((bboxFilter toGeom items b).take 100).map (fun it => transformFn it d) := by
    cases tag with
    | none => rfl
    | some tg => rfl
  refine ⟨h1, h2, ?_, ?_⟩
  · rw [h2, List.length_map, List.length_take]
    omega
  · intro hne
    rw [h2]
    intro hmapnil
    rcases List.take_eq_nil_iff.mp (List.map_eq_nil_iff.mp hmapnil) with h | h
    · exact absurd h (by decide)
    · exact hne h

/-- C10 witnessed: `limit = 0` against one matching record returns that
record rather than an empty list. -/
theorem claim10_default_limit_witness :
    bboxFilter pointToGeometry
        [⟨"s1", none, none, "", some ((12 : ℚ), (56 : ℚ))⟩] ⟨11, 55, 13, 57⟩ ≠ [] ∧
    (runBBoxQuery pointToGeometry transformStationGeometry none
        [⟨"s1", none, none, "", some ((12 : ℚ), (56 : ℚ))⟩]
        ⟨11, 55, 13, 57⟩ (some 0) .precise 0 []).1 ≠ [] :=
  ⟨by decide,
    (claim10_default_limit pointToGeometry transformStationGeometry none
        [⟨"s1", none, none, "", some ((12 : ℚ), (56 : ℚ))⟩]
        ⟨11, 55, 13, 57⟩ .precise 0).2.2.2 (by decide)⟩

/-- Pre-removing records without geometry does not change a filter whose
predicate already rejects absent geometry. -/
theorem filter_isSome_comm {γ : Type} (recs : List (Rec γ)) (p : Rec γ → Bool)
    (hp : ∀ r : Rec γ, r.geometry = none → p r = false) :
    (recs.filter (fun r => r.geometry.isSome)).filter p = recs.filter p := by
  induction recs with
  | nil => rfl
  | cons r rest ih =>
    cases hg : r.geometry with
    | none => simp [List.filter_cons, hg, hp r hg, ih]
    | some g => simp [List.filter_cons, hg, ih]

/-- The dataset with geometry-less point records removed up front. -/
def dropMissingPointGeoms (data : Dataset) : Dataset :=
  { data with
    switches := data.switches.filter (fun r => r.geometry.isSome)
    stations := data.stations.filter (fun r => r.geometry.isSome)
    yards := data.yards.filter (fun r => r.geometry.isSome)
    accessRestrictions := data.accessRestrictions.filter (fun r => r.geometry.isSome) }

/-- The raw segment computation ignores point records without geometry. -/
theorem nearbyFilter_skip (track : Option (Rec (List Q2))) (recs : List (Rec Q2)) :
    nearbyFilter track (recs.filter (fun r => r.geometry.isSome))
      = nearbyFilter track recs := by
  cases track with
  | none => rfl
  | some tr =>
    cases hg : tr.geometry with
    | none => simp [nearbyFilter, hg]
    | some geom =>
      simp only [nearbyFilter, hg]
      exact filter_isSome_comm recs _ (fun r h => by simp [h])

theorem segmentRaw_skip (data : Dataset) (trackId : String) :
    segmentRaw (dropMissingPointGeoms data) trackId = segmentRaw data trackId := by
  simp only [segmentRaw, dropMissingPointGeoms, nearbyFilter_skip]

/-- C8: records whose stored geometry is absent are skipped, never fatal —
removing them from the dataset beforehand changes neither the bbox filter
of any by-region query nor the segment query's proximity association, every
record passing the bbox filter has geometry, and every query is total by
construction. -/
theorem claim8_skip_missing_geometry :
    (∀ (γ : Type) (toGeom : γ → Geometry) (items : List (Rec γ)) (b : BBox),
      bboxFilter toGeom (items.filter (fun r => r.geometry.isSome)) b
        = bboxFilter toGeom items b) ∧
    (∀ (γ : Type) (toGeom : γ → Geometry) (items : List (Rec γ)) (b : BBox),
      ∀ it ∈ bboxFilter toGeom items b, it.geometry.isSome = true) ∧
    (∀ (data : Dataset) (trackId : String) (d : GeometryDetail) (now : ℕ)
      (cache : Cache SegmentInfrastructure),
      getSegmentInfrastructure (dropMissingPointGeoms data) trackId d now cache
        = getSegmentInfrastructure data trackId d now cache) := by
  refine ⟨?_, ?_, ?_⟩
  · intro γ toGeom items b
    exact filter_isSome_comm items _ (fun r h => by simp [bboxFilter, h])
  · intro γ toGeom items b it hit
    have hmem := List.mem_filter.mp hit
    cases hg : it.geometry with
    | none => rw [hg] at hmem; exact absurd hmem.2 (by simp)
    | some g => simp
  · intro data trackId d now cache
    rw [getSegmentInfrastructure, getSegmentInfrastructure, segmentRaw_skip]

/-- C8 witnessed: a geometry-less switch alongside a good one is simply
dropped from a by-region query result, and the record that does pass the
filter carries geometry. -/
theorem claim8_skip_missing_geometry_witness :
    (bboxFilter pointToGeometry
        (([⟨"bad", none, none, "", none⟩,
          ⟨"good", none, none, "", some ((12 : ℚ), (56 : ℚ))⟩] :
          List (Rec Q2)).filter (fun r => r.geometry.isSome)) ⟨11, 55, 13, 57⟩
      = bboxFilter pointToGeometry
          [⟨"bad", none, none, "", none⟩,
           ⟨"good", none, none, "", some ((12 : ℚ), (56 : ℚ))⟩] ⟨11, 55, 13, 57⟩) ∧
    ((⟨"good", none, none, "", some ((12 : ℚ), (56 : ℚ))⟩ : Rec Q2)
        ∈ bboxFilter pointToGeometry
          [⟨"bad", none, none, "", none⟩,
           ⟨"good", none, none, "", some ((12 : ℚ), (56 : ℚ))⟩] ⟨11, 55, 13, 57⟩ ∧
      (⟨"good", none, none, "", some ((12 : ℚ), (56 : ℚ))⟩ : Rec Q2).geometry.isSome
        = true) :=
  ⟨claim8_skip_missing_geometry.1 Q2 pointToGeometry
      [⟨"bad", none, none, "", none⟩,
       ⟨"good", none, none, "", some ((12 : ℚ), (56 : ℚ))⟩] ⟨11, 55, 13, 57⟩,
    by decide,
    claim8_skip_missing_geometry.2.1 Q2 pointToGeometry
      [⟨"bad", none, none, "", none⟩,
       ⟨"good", none, none, "", some ((12 : ℚ), (56 : ℚ))⟩] ⟨11, 55, 13, 57⟩
      ⟨"good", none, none, "", some ((12 : ℚ), (56 : ℚ))⟩ (by decide)⟩

/-- C3 counterexample: the tunnels by-region query — one of the eight
category queries — is built without a `cachePrefix`, so it stores nothing
in the result cache and scans the dataset again on an identical repeat
query at a later time, contradicting the claim that all eight by-region
queries cache their raw results. -/
theorem claim3_counterexample :
    (getTunnelsByBBox [⟨"t1", none, none, "", some [((12 : ℚ), (56 : ℚ))]⟩]
        ⟨11, 55, 13, 57⟩ none .corridor 0 []).2.1 = [] ∧
    (getTunnelsByBBox [⟨"t1", none, none, "", some [((12 : ℚ), (56 : ℚ))]⟩]
        ⟨11, 55, 13, 57⟩ none .corridor 0 []).2.2 = true ∧
    (getTunnelsByBBox [⟨"t1", none, none, "", some [((12 : ℚ), (56 : ℚ))]⟩]
        ⟨11, 55, 13, 57⟩ none .corridor 1
        ((getTunnelsByBBox [⟨"t1", none, none, "", some [((12 : ℚ), (56 : ℚ))]⟩]
          ⟨11, 55, 13, 57⟩ none .corridor 0 []).2.1)).2.2 = true :=
  ⟨rfl, rfl, rfl⟩

/-- C3 (amended): only the segment query and the tracks by-region query
cache; each stores the raw (detail-independent) result keyed by query kind
and parameters, an identical query within the 24-hour TTL reuses it without
a second dataset scan, and the detail reduction is recomputed from the raw
data on every call (the second call may use a different detail level); the
other seven by-region queries never touch the cache and re-scan every
time. -/
theorem claim3_cache_amended :
    (∀ (items : List (Rec (List Q2))) (b : BBox) (limit : Option ℕ)
      (d₁ d₂ : GeometryDetail) (now₀ now₁ : ℕ), now₁ - now₀ ≤ CACHE_TTL →
      (getTracksByBBox items b limit d₁ now₀ []).2.2 = true ∧
      (getTracksByBBox items b limit d₁ now₀ []).2.1
        = [(bboxCacheKey "tracks" b, ⟨bboxFilter lineToGeometry items b, now₀⟩)] ∧
      (getTracksByBBox items b limit d₂ now₁
          ((getTracksByBBox items b limit d₁ now₀ []).2.1)).2.2 = false ∧
      (getTracksByBBox items b limit d₂ now₁
          ((getTracksByBBox items b limit d₁ now₀ []).2.1)).1
        = ((bboxFilter lineToGeometry items b).take (effLimit limit)).map
            (fun it => transformTrackGeometry it d₂)) ∧
    (∀ (data : Dataset) (trackId : String) (d₁ d₂ : GeometryDetail)
      (now₀ now₁ : ℕ), now₁ - now₀ ≤ CACHE_TTL →
      (getSegmentInfrastructure data trackId d₁ now₀ []).2.2 = true ∧
      (getSegmentInfrastructure data trackId d₁ now₀ []).2.1
        = [("segment:" ++ trackId, ⟨segmentRaw data trackId, now₀⟩)] ∧
      (getSegmentInfrastructure data trackId d₂ now₁
          ((getSegmentInfrastructure data trackId d₁ now₀ []).2.1)).2.2 = false ∧
      (getSegmentInfrastructure data trackId d₂ now₁
          ((getSegmentInfrastructure data trackId d₁ now₀ []).2.1)).1
        = transformSegment (segmentRaw data trackId) d₂) ∧
    (∀ (γ : Type) (toGeom : γ → Geometry)
      (transformFn : Rec γ → GeometryDetail → Rec γ) (items : List (Rec γ))
      (b : BBox) (limit : Option ℕ) (d : GeometryDetail) (now : ℕ)
      (cache : Cache (List (Rec γ))),
      (runBBoxQuery toGeom transformFn none items b limit d now cache).2.1 = cache ∧
      (runBBoxQuery toGeom transformFn none items b limit d now cache).2.2 = true) := by
  refine ⟨?_, ?_, ?_⟩
  · intro items b limit d₁ d₂ now₀ now₁ h
    have hc1 : (getTracksByBBox items b limit d₁ now₀ []).2.1
        = [(bboxCacheKey "tracks" b, ⟨bboxFilter lineToGeometry items b, now₀⟩)] := rfl
    have hhit := runBBoxQuery_tagged_hit lineToGeometry transformTrackGeometry "tracks"
      items b limit d₂ (bboxFilter lineToGeometry items b) now₀ now₁ h
    refine ⟨rfl, hc1, ?_, ?_⟩
    · rw [hc1]
      show (runBBoxQuery lineToGeometry transformTrackGeometry (some "tracks") items b
        limit d₂ now₁ [(bboxCacheKey "tracks" b,
          ⟨bboxFilter lineToGeometry items b, now₀⟩)]).2.2 = false
      rw [hhit]
    · rw [hc1]
      show (runBBoxQuery lineToGeometry transformTrackGeometry (some "tracks") items b
        limit d₂ now₁ [(bboxCacheKey "tracks" b,
          ⟨bboxFilter lineToGeometry items b, now₀⟩)]).1
        = ((bboxFilter lineToGeometry items b).take (effLimit limit)).map
            (fun it => transformTrackGeometry it d₂)
      rw [hhit]
  · intro data trackId d₁ d₂ now₀ now₁ h
    have hc1 : (getSegmentInfrastructure data trackId d₁ now₀ []).2.1
        = [("segment:" ++ trackId, ⟨segmentRaw data trackId, now₀⟩)] := rfl
    have hhit := getSegment_hit data trackId d₂ (segmentRaw data trackId) now₀ now₁ h
    refine ⟨rfl, hc1, ?_, ?_⟩
    · rw [hc1, hhit]
    · rw [hc1, hhit]
  · intro γ toGeom transformFn items b limit d now cache
    exact ⟨rfl, rfl⟩

/-- C3 amended, witnessed: a repeated tracks query within the TTL does not
scan again. -/
theorem claim3_cache_amended_witness :
    (1 : ℕ) - 0 ≤ CACHE_TTL ∧
    (getTracksByBBox [] ⟨11, 55, 13, 57⟩ none .precise 1
        ((getTracksByBBox [] ⟨11, 55, 13, 57⟩ none .precise 0 []).2.1)).2.2 = false :=
  ⟨by decide,
    (claim3_cache_amended.1 [] ⟨11, 55, 13, 57⟩ none .precise .precise 0 1
      (by decide)).2.2.1⟩
